import Mathlib

/-!
# The `linear` launcher (`npm/linear-cli/bin.js`)

A shallow embedding of the launcher script: the static `PLATFORMS` table, the
platform key, the two-step binary resolution, the validation of the resolved
path, and the dispatch to the child process.  Everything the script obtains from
its host (platform, architecture, `process.argv`, `__dirname`, module
resolution, the filesystem, the child process) is a field of `Env`; a run of the
script is the list of host calls it performs, in order.
-/

namespace LinearCli

/-! ## The host's `path` module

`join` and `dirname` are imported by the script from Node's `path`; every key of
`PLATFORMS` names a POSIX platform, so the POSIX flavour is the one that runs.
They are library functions, embedded here by their Node behaviour on the
characters of the path. -/

/-- Put a character in front of the first segment. -/
def consHead (c : Char) : List (List Char) → List (List Char)
  | [] => [[c]]
  | seg :: rest => (c :: seg) :: rest

/-- The segments of a path between its `/` separators (empty segments kept). -/
def splitSlash : List Char → List (List Char)
  | [] => [[]]
  | c :: cs => if c = '/' then [] :: splitSlash cs else consHead c (splitSlash cs)

/-- Segments written back with a single `/` between neighbours. -/
def joinSlash : List (List Char) → List Char
  | [] => []
  | [s] => s
  | s :: t :: rest => s ++ '/' :: joinSlash (t :: rest)

/-- One separator-delimited segment of `normalizeString`: empty and `.` segments
are dropped, `..` removes the segment before it (or is kept when there is none to
remove and the path is relative), anything else is appended.  `res` holds the
segments kept so far, last one first. -/
def normalizeStep (allowAboveRoot : Bool) (res : List (List Char)) (seg : List Char) :
    List (List Char) :=
  if seg = [] ∨ seg = ['.'] then res
  else if seg = ['.', '.'] then
    match res with
    | [] => if allowAboveRoot then [seg] else []
    | top :: rest =>
      if top = ['.', '.'] then (if allowAboveRoot then seg :: res else res) else rest
  else seg :: res

/-- Node's `normalizeString(path, allowAboveRoot, "/")`. -/
def normalizeString (path : List Char) (allowAboveRoot : Bool) : List Char :=
  joinSlash ((splitSlash path).foldl (normalizeStep allowAboveRoot) []).reverse

/-- Node's `path.posix.normalize`. -/
def normalize (path : String) : String :=
  if path.data.length = 0 then "."
  else
    let isAbsolute := path.data.head? = some '/'
    let trailingSeparator := path.data.getLast? = some '/'
    let res := normalizeString path.data (!decide isAbsolute)
    if res.length = 0 then
      if isAbsolute then "/" else if trailingSeparator then "./" else "."
    else
      let res := if trailingSeparator then res ++ ['/'] else res
      String.mk (if isAbsolute then '/' :: res else res)

/-- The accumulation loop of `path.posix.join`: non-empty arguments are
concatenated with `/` between them; `joined` is `none` while still undefined. -/
def joinArgs : Option String → List String → Option String
  | joined, [] => joined
  | joined, arg :: rest =>
    if arg.data.length > 0 then
      match joined with
      | none => joinArgs (some arg) rest
      | some j => joinArgs (some (j ++ "/" ++ arg)) rest
    else joinArgs joined rest

/-- Node's `path.posix.join(...paths)`. -/
def join (paths : List String) : String :=
  match joinArgs none paths with
  | none => "."
  | some joined => normalize joined

/-- The backwards scan of `path.posix.dirname`: from index `i` down to `1`, the
index of the first `/` met after a non-separator character has been seen. -/
def dirnameScan (path : List Char) : Nat → Bool → Option Nat
  | 0, _ => none
  | i + 1, matchedSlash =>
    if path[i + 1]? = some '/' then
      if !matchedSlash then some (i + 1) else dirnameScan path i matchedSlash
    else dirnameScan path i false

/-- Node's `path.posix.dirname`. -/
def dirname (path : String) : String :=
  if path.data.length = 0 then "."
  else
    let hasRoot := path.data.head? = some '/'
    match dirnameScan path.data (path.data.length - 1) true with
    | none => if hasRoot then "/" else "."
    | some e => if hasRoot ∧ e = 1 then "//" else String.mk (path.data.take e)

/-- The final component of a path: the characters after its last `/`. -/
def finalComponent (path : String) : String :=
  String.mk (path.data.reverse.takeWhile (fun c => c ≠ '/')).reverse

/-! ## The launcher -/

/-- The `PLATFORMS` object literal: its own properties, in source order.  The
expression `PLATFORMS[k]` is `platformsAt`, which also sees the properties inherited
from `Object.prototype`.  The script only ever indexes the object with `key`, which
contains a hyphen, so no inherited property can be hit and `PLATFORMS[key]` is the
lookup among these four entries (`platformsAt_key`). -/
def PLATFORMS : List (String × String) :=
  [ ("darwin-arm64", "@0xbigboss/linear-cli-darwin-arm64"),
    ("darwin-x64", "@0xbigboss/linear-cli-darwin-x64"),
    ("linux-x64", "@0xbigboss/linear-cli-linux-x64"),
    ("linux-arm64", "@0xbigboss/linear-cli-linux-arm64") ]

/-- The keys of `PLATFORMS`. -/
def platformKeys : List String := PLATFORMS.map Prod.fst

/-- The template string of line 13: platform and architecture joined by a hyphen. -/
def key (platform arch : String) : String := platform ++ "-" ++ arch

/-- Everything a run of the script reads from its host. -/
structure Env where
  /-- The value of `process.platform`. -/
  platform : String
  /-- The value of `process.arch`. -/
  arch : String
  /-- The value of `process.argv`. -/
  argv : List String
  /-- The value of `__dirname`, the directory of the launcher script. -/
  __dirname : String
  /-- The host's `require.resolve`: the resolved path, or the error it throws. -/
  requireResolve : String → Except String String
  /-- The host's `existsSync` on the filesystem of the run. -/
  existsSync : String → Bool
  /-- The `status` of `spawnSync(bin, args, ...)` with inherited stdio; `none` is `null`. -/
  spawnSync : String → List String → Option Int
  /-- The `error` of `spawnSync(bin, args, ...)`: present when no child process could be
  started (the path is a directory, is not executable, ...); the script never reads it. -/
  spawnError : String → List String → Option String

/-- The two places where the script calls `existsSync`. -/
inductive Site where
  /-- Line 30, on the local-development path that line 29 builds inside the `catch` block. -/
  | fallback
  /-- Line 35, on `bin`. -/
  | validation
  deriving DecidableEq, Repr

/-- The calls to the host a run performs. -/
inductive Event where
  /-- A call `require.resolve(request)`. -/
  | requireResolve (request : String)
  /-- A call `existsSync(path)` at the given call site. -/
  | existsSync (site : Site) (path : String)
  /-- A call `console.error(message)`. -/
  | consoleError (message : String)
  /-- A call `spawnSync(bin, args, ...)` with inherited stdio. -/
  | spawnSync (bin : String) (args : List String)
  /-- A call `process.exit(code)`, recorded with its argument. -/
  | exit (code : Int)
  deriving DecidableEq, Repr

/-- The message of line 17. -/
def unsupportedMessage (key : String) : String := "Unsupported platform: " ++ key

/-- The message of line 36. -/
def notFoundMessage (key : String) : String :=
  "Binary not found for " ++ key ++ ". Run: zig build npm"

/-- JavaScript `!v` for a value that is a string or `undefined`. -/
def falsy : Option String → Bool
  | none => true
  | some s => s.data.length = 0

/-- Lines 21 to 33: the calls made while resolving, and the final value of `bin`
(`none` while it is still `undefined`). -/
def resolveBin (env : Env) (key pkg : String) : List Event × Option String :=
  match env.requireResolve (pkg ++ "/package.json") with
  | .ok pkgPath =>
    ([.requireResolve (pkg ++ "/package.json")], some (join [dirname pkgPath, "linear"]))
  | .error _ =>
    let localPath := join [env.__dirname, "..", "linear-cli-" ++ key, "linear"]
    ([.requireResolve (pkg ++ "/package.json"), .existsSync .fallback localPath],
      if env.existsSync localPath then some localPath else none)

/-- Lines 35 to 41: the validation of `bin`, then the spawn and the exit. -/
def validateAndSpawn (env : Env) (key : String) (bin : Option String) : List Event :=
  if falsy bin then [.consoleError (notFoundMessage key), .exit 1]
  else
    match bin with
    | none => [.consoleError (notFoundMessage key), .exit 1]
    | some b =>
      if !env.existsSync b then
        [.existsSync .validation b, .consoleError (notFoundMessage key), .exit 1]
      else
        [.existsSync .validation b, .spawnSync b (env.argv.drop 2),
          .exit ((env.spawnSync b (env.argv.drop 2)).getD 1)]

/-- A run of `bin.js`: the host calls it performs, in order. -/
def launcher (env : Env) : List Event :=
  let key := key env.platform env.arch
  let pkg := PLATFORMS.lookup key
  if falsy pkg then [.consoleError (unsupportedMessage key), .exit 1]
  else
    match pkg with
    | none => [.consoleError (unsupportedMessage key), .exit 1]
    | some pkg =>
      let r := resolveBin env key pkg
      r.1 ++ validateAndSpawn env key r.2

/-- The installed-package candidate: `join(dirname(pkgPath), "linear")` when the
package's `package.json` resolves. -/
def installedCandidate (env : Env) (pkg : String) : Option String :=
  match env.requireResolve (pkg ++ "/package.json") with
  | .ok pkgPath => some (join [dirname pkgPath, "linear"])
  | .error _ => none

/-- The local-development candidate `join(__dirname, "..", "linear-cli-{key}", "linear")`. -/
def localCandidate (env : Env) (key : String) : String :=
  join [env.__dirname, "..", "linear-cli-" ++ key, "linear"]

/-- The messages written to the error stream by the launcher. -/
def errorsOf : List Event → List String
  | [] => []
  | .consoleError m :: es => m :: errorsOf es
  | _ :: es => errorsOf es

/-- The `spawnSync` calls of a run: binary and argument list. -/
def spawnsOf : List Event → List (String × List String)
  | [] => []
  | .spawnSync b a :: es => (b, a) :: spawnsOf es
  | _ :: es => spawnsOf es

/-- The paths whose existence was checked, with the call site. -/
def checksOf : List Event → List (Site × String)
  | [] => []
  | .existsSync s p :: es => (s, p) :: checksOf es
  | _ :: es => checksOf es

/-- The module requests passed to `require.resolve`. -/
def resolvesOf : List Event → List String
  | [] => []
  | .requireResolve r :: es => r :: resolvesOf es
  | _ :: es => resolvesOf es

/-- The code the process terminates with: the argument of the first `process.exit`. -/
def exitCodeOf : List Event → Option Int
  | [] => none
  | .exit c :: _ => some c
  | _ :: es => exitCodeOf es

/-- Whether the installed-package candidate was produced and exists. -/
def installedExists (env : Env) (pkg : String) : Bool :=
  match installedCandidate env pkg with
  | some b => env.existsSync b
  | none => false

/-- The BinaryNotFound outcome: the message of line 36 is the only one written to
the error stream and the process exits with code 1. -/
def binaryNotFound (key : String) (run : List Event) : Prop :=
  errorsOf run = [notFoundMessage key] ∧ exitCodeOf run = some 1

/-- The property names every object literal inherits from `Object.prototype`. -/
def objectPrototypeProperties : List String :=
  ["constructor", "__defineGetter__", "__defineSetter__", "hasOwnProperty",
    "__lookupGetter__", "__lookupSetter__", "isPrototypeOf", "propertyIsEnumerable",
    "toString", "valueOf", "__proto__", "toLocaleString"]

/-- The values the expression `PLATFORMS[k]` can have. -/
inductive JsValue where
  /-- The value `undefined`: no own and no inherited property of that name. -/
  | undefined
  /-- A string, the value of an own property. -/
  | string (s : String)
  /-- The member of `Object.prototype` of the given name (a function or an object). -/
  | inherited (name : String)
  deriving DecidableEq, Repr

/-- JavaScript truthiness: `undefined` and the empty string are falsy, functions and
objects are truthy. -/
def truthy : JsValue → Bool
  | .undefined => false
  | .string s => s.data.length ≠ 0
  | .inherited _ => true

/-- The expression `PLATFORMS[k]` on the object literal: an own property wins, then
the prototype chain is searched, else the value is `undefined`. -/
def platformsAt (k : String) : JsValue :=
  match PLATFORMS.lookup k with
  | some pkg => .string pkg
  | none => if k ∈ objectPrototypeProperties then .inherited k else .undefined

/-- The children actually started in a run: the `spawnSync` calls whose result
carries no `error`. -/
def startedOf (env : Env) (run : List Event) : List (String × List String) :=
  (spawnsOf run).filter (fun c => (env.spawnError c.1 c.2).isNone)

/-! ## Package identifiers -/

/-- A lowercase URL-safe character: a lowercase letter, a digit, or one of `-._~`. -/
def urlSafeLower (c : Char) : Bool :=
  c.isLower || c.isDigit || c = '-' || c = '.' || c = '_' || c = '~'

/-- A scoped package name `@scope/name`: both parts non-empty and made of lowercase
URL-safe characters only. -/
def validScopedName (s : String) : Bool :=
  match s.data with
  | '@' :: rest =>
    match rest.dropWhile (fun c => c ≠ '/') with
    | '/' :: name =>
      !(rest.takeWhile (fun c => c ≠ '/')).isEmpty && !name.isEmpty &&
        (rest.takeWhile (fun c => c ≠ '/')).all urlSafeLower && name.all urlSafeLower
    | _ => false
  | _ => false

/-! ## Path shapes used in the proofs -/

/-- A plain file name: non-empty, without separator, and neither `.` nor `..`. -/
def PlainName (s : List Char) : Prop :=
  s ≠ [] ∧ '/' ∉ s ∧ s ≠ ['.'] ∧ s ≠ ['.', '.']

/-- The path `p` is `s`, or something followed by `/` and `s`. -/
def EndsIn (p s : List Char) : Prop :=
  p = s ∨ ∃ a, p = a ++ '/' :: s

/-! ## Sample hosts -/

/-- A Windows host: its key `win32-x64` is not in the table. -/
def envWindows : Env where
  platform := "win32"
  arch := "x64"
  argv := ["node", "bin.js", "status"]
  __dirname := "/repo/npm/linear-cli"
  requireResolve := fun _ => .error "MODULE_NOT_FOUND"
  existsSync := fun _ => true
  spawnSync := fun _ _ => some 0
  spawnError := fun _ _ => none

/-- Linux x64 with the platform package installed and shipping its binary; the
child exits with status 3. -/
def envInstalled : Env where
  platform := "linux"
  arch := "x64"
  argv := ["node", "/repo/npm/linear-cli/bin.js", "status", "--json"]
  __dirname := "/repo/npm/linear-cli"
  requireResolve := fun r =>
    if r = "@0xbigboss/linear-cli-linux-x64/package.json" then
      .ok "/repo/node_modules/@0xbigboss/linear-cli-linux-x64/package.json"
    else .error "MODULE_NOT_FOUND"
  existsSync := fun p => p = "/repo/node_modules/@0xbigboss/linear-cli-linux-x64/linear"
  spawnSync := fun _ _ => some 3
  spawnError := fun _ _ => none

/-- macOS arm64 in a development checkout: the package does not resolve, the local
build output exists, and the child is killed by a signal (status `null`). -/
def envLocal : Env where
  platform := "darwin"
  arch := "arm64"
  argv := ["node", "/repo/npm/linear-cli/bin.js", "issues", "list"]
  __dirname := "/repo/npm/linear-cli"
  requireResolve := fun _ => .error "MODULE_NOT_FOUND"
  existsSync := fun p => p = "/repo/npm/linear-cli-darwin-arm64/linear"
  spawnSync := fun _ _ => none
  spawnError := fun _ _ => none

/-- Linux arm64 with nothing installed and nothing built. -/
def envNothing : Env where
  platform := "linux"
  arch := "arm64"
  argv := ["node", "/repo/npm/linear-cli/bin.js", "status"]
  __dirname := "/repo/npm/linear-cli"
  requireResolve := fun _ => .error "MODULE_NOT_FOUND"
  existsSync := fun _ => false
  spawnSync := fun _ _ => some 0
  spawnError := fun _ _ => none

/-- Linux x64 where the platform package resolves but does not contain the binary,
while the local build output `../linear-cli-linux-x64/linear` exists. -/
def envInstalledWithoutBinary : Env where
  platform := "linux"
  arch := "x64"
  argv := ["node", "/repo/npm/linear-cli/bin.js", "status"]
  __dirname := "/repo/npm/linear-cli"
  requireResolve := fun r =>
    if r = "@0xbigboss/linear-cli-linux-x64/package.json" then
      .ok "/repo/node_modules/@0xbigboss/linear-cli-linux-x64/package.json"
    else .error "MODULE_NOT_FOUND"
  existsSync := fun p => p = "/repo/npm/linear-cli-linux-x64/linear"
  spawnSync := fun _ _ => some 0
  spawnError := fun _ _ => none

/-- Linux x64 where the platform package resolves and `linear` inside it is a
directory: `existsSync` answers true, `spawnSync` cannot start it and returns
status `null` together with an `EACCES` error. -/
def envBinaryIsDirectory : Env where
  platform := "linux"
  arch := "x64"
  argv := ["node", "/repo/npm/linear-cli/bin.js", "status"]
  __dirname := "/repo/npm/linear-cli"
  requireResolve := fun r =>
    if r = "@0xbigboss/linear-cli-linux-x64/package.json" then
      .ok "/repo/node_modules/@0xbigboss/linear-cli-linux-x64/package.json"
    else .error "MODULE_NOT_FOUND"
  existsSync := fun p => p = "/repo/node_modules/@0xbigboss/linear-cli-linux-x64/linear"
  spawnSync := fun _ _ => none
  spawnError := fun _ _ => some "EACCES"

/-! ## The `path` functions on a final plain name -/

theorem splitSlash_ne_nil (p : List Char) : splitSlash p ≠ [] := by
  cases p with
  | nil => simp [splitSlash]
  | cons c cs =>
    unfold splitSlash
    split
    · simp
    · cases h : splitSlash cs <;> simp [consHead]

theorem consHead_append (c : Char) (xs ys : List (List Char)) (h : xs ≠ []) :
    consHead c (xs ++ ys) = consHead c xs ++ ys := by
  cases xs with
  | nil => exact absurd rfl h
  | cons x xs => rfl

theorem splitSlash_append_slash (a b : List Char) :
    splitSlash (a ++ '/' :: b) = splitSlash a ++ splitSlash b := by
  induction a with
  | nil => simp [splitSlash]
  | cons c cs ih =>
    by_cases hc : c = '/'
    · simp [splitSlash, hc, ih]
    · simp [splitSlash, hc, ih, consHead_append _ _ _ (splitSlash_ne_nil cs)]

theorem splitSlash_of_not_mem (s : List Char) (h : '/' ∉ s) : splitSlash s = [s] := by
  induction s with
  | nil => rfl
  | cons c cs ih =>
    simp only [List.mem_cons, not_or] at h
    have hc : c ≠ '/' := fun e => h.1 e.symm
    simp [splitSlash, hc, ih h.2, consHead]

theorem splitSlash_endsIn (p s : List Char) (hs : '/' ∉ s) (h : EndsIn p s) :
    ∃ X, splitSlash p = X ++ [s] := by
  rcases h with rfl | ⟨a, rfl⟩
  · exact ⟨[], by simp [splitSlash_of_not_mem _ hs]⟩
  · exact ⟨splitSlash a, by rw [splitSlash_append_slash, splitSlash_of_not_mem _ hs]⟩

theorem normalizeStep_plain (allow : Bool) (res : List (List Char)) (s : List Char)
    (hs : PlainName s) : normalizeStep allow res s = s :: res := by
  obtain ⟨h1, _, h3, h4⟩ := hs
  simp [normalizeStep, h1, h3, h4]

theorem joinSlash_snoc (ys : List (List Char)) (s : List Char) :
    EndsIn (joinSlash (ys ++ [s])) s := by
  induction ys with
  | nil => left; rfl
  | cons y ys ih =>
    right
    cases ys with
    | nil => exact ⟨y, rfl⟩
    | cons z zs =>
      have e : joinSlash (y :: z :: (zs ++ [s])) = y ++ '/' :: joinSlash (z :: (zs ++ [s])) := rfl
      rcases ih with h | ⟨a, h⟩
      · exact ⟨y, by rw [List.cons_append, List.cons_append, e, ← List.cons_append, h]⟩
      · exact ⟨y ++ '/' :: a, by
          rw [List.cons_append, List.cons_append, e, ← List.cons_append, h]; simp⟩

theorem normalizeString_endsIn (p s : List Char) (allow : Bool) (hs : PlainName s)
    (h : EndsIn p s) : EndsIn (normalizeString p allow) s := by
  obtain ⟨X, hX⟩ := splitSlash_endsIn p s hs.2.1 h
  unfold normalizeString
  rw [hX, List.foldl_append]
  simp only [List.foldl_cons, List.foldl_nil, normalizeStep_plain _ _ _ hs, List.reverse_cons]
  exact joinSlash_snoc _ _

theorem EndsIn.ne_nil {p s : List Char} (h : EndsIn p s) (hs : s ≠ []) : p ≠ [] := by
  rcases h with rfl | ⟨a, rfl⟩
  · exact hs
  · simp

theorem EndsIn.getLast? {p s : List Char} (h : EndsIn p s) (hs : s ≠ []) :
    p.getLast? = s.getLast? := by
  rcases h with rfl | ⟨a, rfl⟩
  · rfl
  · cases s with
    | nil => exact absurd rfl hs
    | cons c cs =>
      rw [List.getLast?_append, List.getLast?_cons_cons, List.getLast?_eq_getLast (c :: cs) hs]
      rfl

theorem EndsIn.cons {p s : List Char} (h : EndsIn p s) (hs : '/' ∉ s) (c : Char) (hc : c = '/') : EndsIn (c :: p) s := by
  rcases h with rfl | ⟨a, rfl⟩
  · exact Or.inr ⟨[], by simp [hc]⟩
  · exact Or.inr ⟨c :: a, by simp⟩

theorem normalize_endsIn (path : String) (s : List Char) (hs : PlainName s)
    (h : EndsIn path.data s) : EndsIn (normalize path).data s := by
  have hne : path.data ≠ [] := h.ne_nil hs.1
  have hlast : ¬ path.data.getLast? = some '/' := by
    rw [h.getLast? hs.1]
    intro hl
    exact hs.2.1 (List.mem_of_mem_getLast? hl)
  have hres := fun allow => normalizeString_endsIn path.data s allow hs h
  have hlen : ∀ allow, (normalizeString path.data allow).length ≠ 0 := fun allow =>
    fun e => (hres allow).ne_nil hs.1 (List.length_eq_zero.mp e)
  unfold normalize
  simp only [List.length_eq_zero, hne, if_false, hlast, hlen]
  split
  · exact (hres _).cons hs.2.1 '/' rfl
  · exact hres _

theorem joinArgs_snoc (xs : List String) (s : String) (hs : s.data ≠ []) :
    ∀ j : Option String, ∃ q, joinArgs j (xs ++ [s]) = some q ∧ EndsIn q.data s.data := by
  have hpos : ¬ s.length = 0 := fun e => hs (List.length_eq_zero.mp e)
  induction xs with
  | nil =>
    intro j
    cases j with
    | none => exact ⟨s, by simp [joinArgs, hpos], Or.inl rfl⟩
    | some j =>
      exact ⟨j ++ "/" ++ s, by simp [joinArgs, hpos], Or.inr ⟨j.data, by simp⟩⟩
  | cons x xs ih =>
    intro j
    simp only [List.cons_append, joinArgs]
    split
    · cases j with
      | none => exact ih _
      | some j => exact ih _
    · exact ih _

theorem join_endsIn (xs : List String) (s : String) (hs : PlainName s.data) :
    EndsIn (join (xs ++ [s])).data s.data := by
  obtain ⟨q, hq, hend⟩ := joinArgs_snoc xs s hs.1 none
  unfold join
  rw [hq]
  exact normalize_endsIn q s.data hs hend

theorem finalComponent_of_endsIn (q : String) (s : List Char) (hs : '/' ∉ s)
    (h : EndsIn q.data s) : finalComponent q = String.mk s := by
  have hall : ∀ t : List Char, '/' ∉ t → ∀ c ∈ t, decide (c ≠ '/') = true := by
    intro t ht c hc
    exact decide_eq_true (fun e => ht (e ▸ hc))
  have key : ∀ (t r : List Char), '/' ∉ t →
      (t ++ '/' :: r).takeWhile (fun c => decide (c ≠ '/')) = t := by
    intro t r ht
    rw [List.takeWhile_append_of_pos (hall t ht)]
    simp
  have key0 : ∀ t : List Char, '/' ∉ t → t.takeWhile (fun c => decide (c ≠ '/')) = t := by
    intro t ht
    exact List.takeWhile_eq_self_iff.mpr (hall t ht)
  have hr : '/' ∉ s.reverse := by simpa using hs
  unfold finalComponent
  rcases h with h | ⟨a, h⟩
  · rw [h, key0 _ hr, List.reverse_reverse]
  · rw [h, List.reverse_append, List.reverse_cons, List.append_assoc, List.singleton_append,
      key _ _ hr, List.reverse_reverse]

theorem plainName_linear : PlainName "linear".data := by
  refine ⟨?_, ?_, ?_, ?_⟩ <;> decide

theorem finalComponent_join_linear (xs : List String) :
    finalComponent (join (xs ++ ["linear"])) = "linear" :=
  finalComponent_of_endsIn _ _ plainName_linear.2.1 (join_endsIn xs "linear" plainName_linear)

theorem falsy_join_linear (xs : List String) : falsy (some (join (xs ++ ["linear"]))) = false := by
  have h := (join_endsIn xs "linear" plainName_linear).ne_nil plainName_linear.1
  have h2 : ¬ (join (xs ++ ["linear"])).data.length = 0 := fun e => h (List.length_eq_zero.mp e)
  simpa [falsy] using h2

/-! ## The table and the shape of a run -/

theorem lookup_of_mem (k : String) (h : k ∈ platformKeys) :
    PLATFORMS.lookup k = some ("@0xbigboss/linear-cli-" ++ k) := by
  simp only [platformKeys, PLATFORMS, List.map_cons, List.map_nil, List.mem_cons,
    List.mem_singleton, List.not_mem_nil, or_false] at h
  rcases h with rfl | rfl | rfl | rfl <;> rfl

theorem lookup_of_not_mem (k : String) (h : k ∉ platformKeys) : PLATFORMS.lookup k = none := by
  simp only [platformKeys, PLATFORMS, List.map_cons, List.map_nil, List.mem_cons,
    List.mem_singleton, List.not_mem_nil, or_false, not_or] at h
  obtain ⟨h1, h2, h3, h4⟩ := h
  simp only [PLATFORMS, List.lookup, beq_eq_false_iff_ne.mpr h1, beq_eq_false_iff_ne.mpr h2,
    beq_eq_false_iff_ne.mpr h3, beq_eq_false_iff_ne.mpr h4]

theorem lookup_eq_some {k pkg : String} (h : PLATFORMS.lookup k = some pkg) :
    k ∈ platformKeys ∧ pkg = "@0xbigboss/linear-cli-" ++ k := by
  by_cases hk : k ∈ platformKeys
  · rw [lookup_of_mem k hk] at h
    exact ⟨hk, (Option.some.inj h).symm⟩
  · rw [lookup_of_not_mem k hk] at h
    exact absurd h (by simp)

theorem lookup_truthy {k pkg : String} (h : PLATFORMS.lookup k = some pkg) :
    falsy (some pkg) = false := by
  obtain ⟨_, rfl⟩ := lookup_eq_some h
  simp [falsy]

theorem falsy_installed (d : String) : falsy (some (join [d, "linear"])) = false :=
  falsy_join_linear [d]

theorem falsy_local (d k : String) : falsy (some (join [d, "..", k, "linear"])) = false :=
  falsy_join_linear [d, "..", k]

theorem launcher_cases (env : Env) :
    (PLATFORMS.lookup (key env.platform env.arch) = none ∧
      launcher env =
        [.consoleError (unsupportedMessage (key env.platform env.arch)), .exit 1]) ∨
    ∃ pkg, PLATFORMS.lookup (key env.platform env.arch) = some pkg ∧
      ((∃ p, env.requireResolve (pkg ++ "/package.json") = .ok p ∧
          env.existsSync (join [dirname p, "linear"]) = true ∧
          launcher env =
            [.requireResolve (pkg ++ "/package.json"),
              .existsSync .validation (join [dirname p, "linear"]),
              .spawnSync (join [dirname p, "linear"]) (env.argv.drop 2),
              .exit ((env.spawnSync (join [dirname p, "linear"]) (env.argv.drop 2)).getD 1)]) ∨
        (∃ p, env.requireResolve (pkg ++ "/package.json") = .ok p ∧
          env.existsSync (join [dirname p, "linear"]) = false ∧
          launcher env =
            [.requireResolve (pkg ++ "/package.json"),
              .existsSync .validation (join [dirname p, "linear"]),
              .consoleError (notFoundMessage (key env.platform env.arch)), .exit 1]) ∨
        (∃ e, env.requireResolve (pkg ++ "/package.json") = .error e ∧
          env.existsSync (localCandidate env (key env.platform env.arch)) = true ∧
          launcher env =
            [.requireResolve (pkg ++ "/package.json"),
              .existsSync .fallback (localCandidate env (key env.platform env.arch)),
              .existsSync .validation (localCandidate env (key env.platform env.arch)),
              .spawnSync (localCandidate env (key env.platform env.arch)) (env.argv.drop 2),
              .exit ((env.spawnSync (localCandidate env (key env.platform env.arch))
                (env.argv.drop 2)).getD 1)]) ∨
        (∃ e, env.requireResolve (pkg ++ "/package.json") = .error e ∧
          env.existsSync (localCandidate env (key env.platform env.arch)) = false ∧
          launcher env =
            [.requireResolve (pkg ++ "/package.json"),
              .existsSync .fallback (localCandidate env (key env.platform env.arch)),
              .consoleError (notFoundMessage (key env.platform env.arch)), .exit 1])) := by
  cases hl : PLATFORMS.lookup (key env.platform env.arch) with
  | none =>
    left
    exact ⟨rfl, by simp [launcher, hl, falsy]⟩
  | some pkg =>
    have hpkg := lookup_truthy hl
    right
    refine ⟨pkg, rfl, ?_⟩
    cases hr : env.requireResolve (pkg ++ "/package.json") with
    | ok p =>
      cases hx : env.existsSync (join [dirname p, "linear"]) with
      | true =>
        left
        exact ⟨p, rfl, hx, by
          simp [launcher, hl, hpkg, resolveBin, hr, validateAndSpawn, falsy_installed, hx]⟩
      | false =>
        right; left
        exact ⟨p, rfl, hx, by
          simp [launcher, hl, hpkg, resolveBin, hr, validateAndSpawn, falsy_installed, hx]⟩
    | error e =>
      cases hx : env.existsSync (localCandidate env (key env.platform env.arch)) with
      | true =>
        right; right; left
        have hx2 := hx
        unfold localCandidate at hx2
        exact ⟨e, rfl, rfl, by
          simp [launcher, hl, hpkg, resolveBin, hr, validateAndSpawn, falsy_local, hx2,
            localCandidate]⟩
      | false =>
        right; right; right
        have hx2 := hx
        unfold localCandidate at hx2
        exact ⟨e, rfl, rfl, by
          have hpkg2 : ¬ pkg.length = 0 := by
            simpa only [falsy, decide_eq_false_iff_not] using hpkg
          simp [launcher, hl, hpkg2, resolveBin, hr, validateAndSpawn, hx2, localCandidate,
            falsy]⟩

theorem run_unsupported (env : Env)
    (h : PLATFORMS.lookup (key env.platform env.arch) = none) :
    launcher env =
      [.consoleError (unsupportedMessage (key env.platform env.arch)), .exit 1] := by
  rcases launcher_cases env with ⟨_, hrun⟩ | ⟨pkg, hl, _⟩
  · exact hrun
  · rw [h] at hl
    exact absurd hl (by simp)

theorem run_installed (env : Env) (pkg p : String)
    (hpkg : PLATFORMS.lookup (key env.platform env.arch) = some pkg)
    (hres : env.requireResolve (pkg ++ "/package.json") = .ok p) :
    launcher env =
      .requireResolve (pkg ++ "/package.json") ::
        .existsSync .validation (join [dirname p, "linear"]) ::
          (if env.existsSync (join [dirname p, "linear"]) then
            [.spawnSync (join [dirname p, "linear"]) (env.argv.drop 2),
              .exit ((env.spawnSync (join [dirname p, "linear"]) (env.argv.drop 2)).getD 1)]
          else [.consoleError (notFoundMessage (key env.platform env.arch)), .exit 1]) := by
  rcases launcher_cases env with ⟨hn, _⟩ | ⟨pkg', hl, h⟩
  · rw [hpkg] at hn
    exact absurd hn (by simp)
  · obtain rfl : pkg = pkg' := by
      rw [hpkg] at hl
      exact Option.some.inj hl
    rcases h with ⟨q, hq, hx, hrun⟩ | ⟨q, hq, hx, hrun⟩ | ⟨e, he, _⟩ | ⟨e, he, _⟩
    · obtain rfl : p = q := by
        rw [hres] at hq
        exact Except.ok.inj hq
      rw [hrun, hx]
      rfl
    · obtain rfl : p = q := by
        rw [hres] at hq
        exact Except.ok.inj hq
      rw [hrun, hx]
      rfl
    · rw [hres] at he
      exact absurd he (by simp)
    · rw [hres] at he
      exact absurd he (by simp)

theorem run_fallback (env : Env) (pkg e : String)
    (hpkg : PLATFORMS.lookup (key env.platform env.arch) = some pkg)
    (hres : env.requireResolve (pkg ++ "/package.json") = .error e) :
    launcher env =
      .requireResolve (pkg ++ "/package.json") ::
        .existsSync .fallback (localCandidate env (key env.platform env.arch)) ::
          (if env.existsSync (localCandidate env (key env.platform env.arch)) then
            [.existsSync .validation (localCandidate env (key env.platform env.arch)),
              .spawnSync (localCandidate env (key env.platform env.arch)) (env.argv.drop 2),
              .exit ((env.spawnSync (localCandidate env (key env.platform env.arch))
                (env.argv.drop 2)).getD 1)]
          else [.consoleError (notFoundMessage (key env.platform env.arch)), .exit 1]) := by
  rcases launcher_cases env with ⟨hn, _⟩ | ⟨pkg', hl, h⟩
  · rw [hpkg] at hn
    exact absurd hn (by simp)
  · obtain rfl : pkg = pkg' := by
      rw [hpkg] at hl
      exact Option.some.inj hl
    rcases h with ⟨q, hq, _⟩ | ⟨q, hq, _⟩ | ⟨_, _, hx, hrun⟩ | ⟨_, _, hx, hrun⟩
    · rw [hres] at hq
      exact absurd hq (by simp)
    · rw [hres] at hq
      exact absurd hq (by simp)
    · rw [hrun, hx]
      rfl
    · rw [hrun, hx]
      rfl

theorem key_not_inherited (platform arch : String) :
    key platform arch ∉ objectPrototypeProperties := by
  have hy : '-' ∈ (key platform arch).data := by simp [key]
  intro h
  simp only [objectPrototypeProperties, List.mem_cons, List.mem_singleton, List.not_mem_nil,
    or_false] at h
  rcases h with h | h | h | h | h | h | h | h | h | h | h | h <;>
    · rw [h] at hy
      revert hy
      decide

theorem platformsAt_key (platform arch : String) :
    platformsAt (key platform arch) =
        (match PLATFORMS.lookup (key platform arch) with
          | some pkg => JsValue.string pkg
          | none => JsValue.undefined) ∧
      truthy (platformsAt (key platform arch)) =
        !falsy (PLATFORMS.lookup (key platform arch)) := by
  have hn := key_not_inherited platform arch
  cases hl : PLATFORMS.lookup (key platform arch) with
  | none => simp [platformsAt, hl, hn, truthy, falsy]
  | some pkg => simp [platformsAt, hl, truthy, falsy]

/-! ## The launcher's contract -/

/-- C1: on a platform whose key `{os}-{arch}` is not a key of `PLATFORMS`, the run
consists of exactly two host calls: `console.error("Unsupported platform: {key}")`
and `process.exit(1)`.  Nothing is resolved, no path is checked, no child is
spawned. -/
theorem unsupported_platform_fails_immediately (env : Env)
    (h : env.platform ++ "-" ++ env.arch ∉ platformKeys) :
    launcher env =
        [.consoleError ("Unsupported platform: " ++ (env.platform ++ "-" ++ env.arch)),
          .exit 1] ∧
      errorsOf (launcher env) =
        ["Unsupported platform: " ++ (env.platform ++ "-" ++ env.arch)] ∧
      exitCodeOf (launcher env) = some 1 ∧
      resolvesOf (launcher env) = [] ∧
      checksOf (launcher env) = [] ∧
      spawnsOf (launcher env) = [] := by
  have hrun := run_unsupported env (lookup_of_not_mem _ h)
  simp only [key, unsupportedMessage] at hrun
  rw [hrun]
  simp [errorsOf, exitCodeOf, resolvesOf, checksOf, spawnsOf]

/-- The Windows host `envWindows` is rejected with the message for `win32-x64`. -/
theorem unsupported_platform_fails_immediately_witness :
    envWindows.platform ++ "-" ++ envWindows.arch ∉ platformKeys ∧
      launcher envWindows = [.consoleError "Unsupported platform: win32-x64", .exit 1] :=
  ⟨by decide, (unsupported_platform_fails_immediately envWindows (by decide)).1⟩

theorem spawns_cases (env : Env) :
    spawnsOf (launcher env) = [] ∨
      ∃ bin pre, launcher env =
          pre ++ [.existsSync .validation bin, .spawnSync bin (env.argv.drop 2),
            .exit ((env.spawnSync bin (env.argv.drop 2)).getD 1)] ∧
        spawnsOf (launcher env) = [(bin, env.argv.drop 2)] ∧
        exitCodeOf (launcher env) = some ((env.spawnSync bin (env.argv.drop 2)).getD 1) ∧
        env.existsSync bin = true ∧
        finalComponent bin = "linear" := by
  rcases launcher_cases env with ⟨_, hrun⟩ | ⟨pkg, _, h⟩
  · left
    rw [hrun]
    rfl
  · rcases h with ⟨p, _, hx, hrun⟩ | ⟨p, _, _, hrun⟩ | ⟨e, _, hx, hrun⟩ | ⟨e, _, _, hrun⟩
    · right
      refine ⟨join [dirname p, "linear"], [.requireResolve (pkg ++ "/package.json")], ?_, ?_, ?_,
        hx, finalComponent_join_linear [dirname p]⟩ <;>
        · rw [hrun]
          rfl
    · left
      rw [hrun]
      rfl
    · right
      refine ⟨localCandidate env (key env.platform env.arch),
        [.requireResolve (pkg ++ "/package.json"),
          .existsSync .fallback (localCandidate env (key env.platform env.arch))], ?_, ?_, ?_,
        hx, finalComponent_join_linear [env.__dirname, "..", _]⟩ <;>
        · rw [hrun]
          rfl
    · left
      rw [hrun]
      rfl

/-- C2: whenever a child is spawned, its argument list is `process.argv` without its
first two elements, in order and unchanged; with two or fewer elements in
`process.argv` the child gets the empty list. -/
theorem child_receives_argv_after_script (env : Env) (bin : String) (args : List String)
    (h : (bin, args) ∈ spawnsOf (launcher env)) :
    args = env.argv.drop 2 ∧
      (∀ node script rest, env.argv = node :: script :: rest → args = rest) ∧
      (env.argv.length ≤ 2 → args = []) := by
  have hargs : args = env.argv.drop 2 := by
    rcases spawns_cases env with h0 | ⟨b, _, _, hs, _⟩
    · rw [h0] at h
      exact absurd h (List.not_mem_nil _)
    · rw [hs, List.mem_singleton] at h
      exact (Prod.mk.inj h).2
  refine ⟨hargs, ?_, ?_⟩
  · intro node script rest hv
    rw [hargs, hv]
    rfl
  · intro hlen
    rw [hargs]
    exact List.drop_eq_nil_of_le hlen

/-- On `envInstalled`, started with `status --json`, the child gets `status --json`. -/
theorem child_receives_argv_after_script_witness :
    ("/repo/node_modules/@0xbigboss/linear-cli-linux-x64/linear", ["status", "--json"]) ∈
        spawnsOf (launcher envInstalled) ∧
      ["status", "--json"] = envInstalled.argv.drop 2 :=
  ⟨by decide,
    (child_receives_argv_after_script envInstalled
      "/repo/node_modules/@0xbigboss/linear-cli-linux-x64/linear" ["status", "--json"]
      (by decide)).1⟩

/-- C3: whenever a child is spawned, the launcher's last call is `process.exit` with
the child's status when that status is a number (0 included) and with 1 when the
status is `null`. -/
theorem exit_code_is_child_status_or_one (env : Env) (bin : String) (args : List String)
    (h : (bin, args) ∈ spawnsOf (launcher env)) :
    exitCodeOf (launcher env) = some ((env.spawnSync bin args).getD 1) ∧
      (launcher env).getLast? = some (.exit ((env.spawnSync bin args).getD 1)) ∧
      (∀ n : Int, env.spawnSync bin args = some n → exitCodeOf (launcher env) = some n) ∧
      (env.spawnSync bin args = none → exitCodeOf (launcher env) = some 1) := by
  have hcode : exitCodeOf (launcher env) = some ((env.spawnSync bin args).getD 1) ∧
      (launcher env).getLast? = some (.exit ((env.spawnSync bin args).getD 1)) := by
    rcases spawns_cases env with h0 | ⟨b, pre, hrun, hs, hc, _⟩
    · rw [h0] at h
      exact absurd h (List.not_mem_nil _)
    · rw [hs, List.mem_singleton] at h
      obtain ⟨rfl, rfl⟩ := Prod.mk.inj h
      refine ⟨hc, ?_⟩
      rw [hrun]
      simp
  refine ⟨hcode.1, hcode.2, ?_, ?_⟩
  · intro n hn
    rw [hcode.1, hn]
    rfl
  · intro hn
    rw [hcode.1, hn]
    rfl

/-- On `envInstalled` the child exits with 3 and so does the launcher. -/
theorem exit_code_is_child_status_or_one_witness :
    ("/repo/node_modules/@0xbigboss/linear-cli-linux-x64/linear", ["status", "--json"]) ∈
        spawnsOf (launcher envInstalled) ∧
      exitCodeOf (launcher envInstalled) = some 3 :=
  ⟨by decide,
    (exit_code_is_child_status_or_one envInstalled
      "/repo/node_modules/@0xbigboss/linear-cli-linux-x64/linear" ["status", "--json"]
      (by decide)).1⟩

/-- C4: on a supported platform, when `require.resolve` of
`{PLATFORMS[key]}/package.json` returns `p` and `join(dirname(p), "linear")` exists,
the run is: resolve, check that path at the validation step, spawn exactly that
path, exit.  The `existsSync` of the `catch` block, where the local-development path
is built and checked, is never reached, whatever the filesystem holds there. -/
theorem installed_binary_is_spawned_without_fallback (env : Env) (pkg p : String)
    (hpkg : PLATFORMS.lookup (key env.platform env.arch) = some pkg)
    (hres : env.requireResolve (pkg ++ "/package.json") = .ok p)
    (hex : env.existsSync (join [dirname p, "linear"]) = true) :
    launcher env =
        [.requireResolve (pkg ++ "/package.json"),
          .existsSync .validation (join [dirname p, "linear"]),
          .spawnSync (join [dirname p, "linear"]) (env.argv.drop 2),
          .exit ((env.spawnSync (join [dirname p, "linear"]) (env.argv.drop 2)).getD 1)] ∧
      spawnsOf (launcher env) = [(join [dirname p, "linear"], env.argv.drop 2)] ∧
      checksOf (launcher env) = [(Site.validation, join [dirname p, "linear"])] ∧
      ∀ q, (Site.fallback, q) ∉ checksOf (launcher env) := by
  have hrun := run_installed env pkg p hpkg hres
  rw [hex, if_pos rfl] at hrun
  rw [hrun]
  simp [spawnsOf, checksOf]

/-- On `envInstalled` the binary inside the resolved package is the one spawned. -/
theorem installed_binary_is_spawned_without_fallback_witness :
    PLATFORMS.lookup (key envInstalled.platform envInstalled.arch) =
        some "@0xbigboss/linear-cli-linux-x64" ∧
      envInstalled.requireResolve ("@0xbigboss/linear-cli-linux-x64" ++ "/package.json") =
        .ok "/repo/node_modules/@0xbigboss/linear-cli-linux-x64/package.json" ∧
      spawnsOf (launcher envInstalled) =
        [("/repo/node_modules/@0xbigboss/linear-cli-linux-x64/linear", ["status", "--json"])] :=
  ⟨by decide, rfl,
    (installed_binary_is_spawned_without_fallback envInstalled
      "@0xbigboss/linear-cli-linux-x64"
      "/repo/node_modules/@0xbigboss/linear-cli-linux-x64/package.json"
      (by decide) rfl (by decide)).2.1⟩

/-- C5: on a supported platform, when `require.resolve` throws (whatever the error)
and `join(__dirname, "..", "linear-cli-{key}", "linear")` exists, nothing is written
to the error stream and exactly that local path is spawned. -/
theorem local_binary_is_spawned_when_resolution_throws (env : Env) (pkg e : String)
    (hpkg : PLATFORMS.lookup (key env.platform env.arch) = some pkg)
    (hres : env.requireResolve (pkg ++ "/package.json") = .error e)
    (hex : env.existsSync
      (join [env.__dirname, "..", "linear-cli-" ++ key env.platform env.arch, "linear"]) =
        true) :
    errorsOf (launcher env) = [] ∧
      spawnsOf (launcher env) =
        [(join [env.__dirname, "..", "linear-cli-" ++ key env.platform env.arch, "linear"],
          env.argv.drop 2)] ∧
      launcher env =
        [.requireResolve (pkg ++ "/package.json"),
          .existsSync .fallback
            (join [env.__dirname, "..", "linear-cli-" ++ key env.platform env.arch, "linear"]),
          .existsSync .validation
            (join [env.__dirname, "..", "linear-cli-" ++ key env.platform env.arch, "linear"]),
          .spawnSync
            (join [env.__dirname, "..", "linear-cli-" ++ key env.platform env.arch, "linear"])
            (env.argv.drop 2),
          .exit ((env.spawnSync
            (join [env.__dirname, "..", "linear-cli-" ++ key env.platform env.arch, "linear"])
            (env.argv.drop 2)).getD 1)] := by
  have hrun := run_fallback env pkg e hpkg hres
  simp only [localCandidate] at hrun
  rw [hex, if_pos rfl] at hrun
  rw [hrun]
  simp [errorsOf, spawnsOf]

/-- On `envLocal` resolution throws and the local build output is spawned silently. -/
theorem local_binary_is_spawned_when_resolution_throws_witness :
    PLATFORMS.lookup (key envLocal.platform envLocal.arch) =
        some "@0xbigboss/linear-cli-darwin-arm64" ∧
      envLocal.requireResolve ("@0xbigboss/linear-cli-darwin-arm64" ++ "/package.json") =
        .error "MODULE_NOT_FOUND" ∧
      errorsOf (launcher envLocal) = [] ∧
      spawnsOf (launcher envLocal) =
        [("/repo/npm/linear-cli-darwin-arm64/linear", ["issues", "list"])] :=
  ⟨by decide, rfl,
    (local_binary_is_spawned_when_resolution_throws envLocal
      "@0xbigboss/linear-cli-darwin-arm64" "MODULE_NOT_FOUND"
      (by decide) rfl (by decide)).1,
    by decide⟩

/-- C6: on a supported platform, when the installed-package candidate does not exist
(resolution threw, or `join(dirname(p), "linear")` is missing) and the
local-development candidate does not exist either, the launcher writes
`Binary not found for {key}. Run: zig build npm` to the error stream, exits with
code 1 and spawns nothing. -/
theorem binary_not_found_when_no_candidate_exists (env : Env) (pkg : String)
    (hpkg : PLATFORMS.lookup (key env.platform env.arch) = some pkg)
    (hinst : ∀ p, env.requireResolve (pkg ++ "/package.json") = .ok p →
      env.existsSync (join [dirname p, "linear"]) = false)
    (hloc : env.existsSync
      (join [env.__dirname, "..", "linear-cli-" ++ key env.platform env.arch, "linear"]) =
        false) :
    errorsOf (launcher env) =
        ["Binary not found for " ++ key env.platform env.arch ++ ". Run: zig build npm"] ∧
      exitCodeOf (launcher env) = some 1 ∧
      (launcher env).getLast? = some (.exit 1) ∧
      spawnsOf (launcher env) = [] := by
  cases hr : env.requireResolve (pkg ++ "/package.json") with
  | ok p =>
    have hrun := run_installed env pkg p hpkg hr
    rw [hinst p hr] at hrun
    rw [hrun]
    simp [errorsOf, exitCodeOf, spawnsOf, notFoundMessage]
  | error e =>
    have hrun := run_fallback env pkg e hpkg hr
    simp only [localCandidate] at hrun
    rw [hloc] at hrun
    rw [hrun]
    simp [errorsOf, exitCodeOf, spawnsOf, notFoundMessage]

/-- On `envNothing` neither candidate exists and the launcher reports it. -/
theorem binary_not_found_when_no_candidate_exists_witness :
    PLATFORMS.lookup (key envNothing.platform envNothing.arch) =
        some "@0xbigboss/linear-cli-linux-arm64" ∧
      envNothing.existsSync (localCandidate envNothing "linux-arm64") = false ∧
      errorsOf (launcher envNothing) =
        ["Binary not found for linux-arm64. Run: zig build npm"] ∧
      exitCodeOf (launcher envNothing) = some 1 ∧
      spawnsOf (launcher envNothing) = [] :=
  ⟨by decide, by decide,
    (binary_not_found_when_no_candidate_exists envNothing "@0xbigboss/linear-cli-linux-arm64"
      (by decide) (fun p hp => by simp [envNothing] at hp) (by decide)).1,
    by decide, by decide⟩

/-- C7 as stated fails: with the platform package resolved but lacking its binary,
and the local-development candidate present, the launcher still ends in
BinaryNotFound and spawns nothing, although one of the two candidates exists. -/
theorem binary_not_found_although_local_candidate_exists :
    PLATFORMS.lookup (key envInstalledWithoutBinary.platform envInstalledWithoutBinary.arch) =
        some "@0xbigboss/linear-cli-linux-x64" ∧
      envInstalledWithoutBinary.existsSync
        (localCandidate envInstalledWithoutBinary "linux-x64") = true ∧
      spawnsOf (launcher envInstalledWithoutBinary) = [] ∧
      ¬ (binaryNotFound "linux-x64" (launcher envInstalledWithoutBinary) ↔
          (installedExists envInstalledWithoutBinary "@0xbigboss/linear-cli-linux-x64" = false ∧
            envInstalledWithoutBinary.existsSync
              (localCandidate envInstalledWithoutBinary "linux-x64") = false)) := by
  refine ⟨by decide, by decide, by decide, ?_⟩
  intro h
  have hnf : binaryNotFound "linux-x64" (launcher envInstalledWithoutBinary) :=
    ⟨by decide, by decide⟩
  exact absurd (h.mp hnf).2 (by decide)

/-- C7, amended: on a supported platform the launcher ends in BinaryNotFound exactly
when the installed-package candidate does not exist and, in case resolution threw,
the local-development candidate does not exist either.  An existing installed
candidate is the one spawned; the local candidate is spawned when resolution threw
and it exists. -/
theorem binary_not_found_iff_selected_candidate_missing (env : Env) (pkg : String)
    (hpkg : PLATFORMS.lookup (key env.platform env.arch) = some pkg) :
    (binaryNotFound (key env.platform env.arch) (launcher env) ↔
        (installedExists env pkg = false ∧
          (installedCandidate env pkg = none →
            env.existsSync (localCandidate env (key env.platform env.arch)) = false))) ∧
      (∀ b, installedCandidate env pkg = some b → env.existsSync b = true →
        spawnsOf (launcher env) = [(b, env.argv.drop 2)]) ∧
      (installedCandidate env pkg = none →
        env.existsSync (localCandidate env (key env.platform env.arch)) = true →
        spawnsOf (launcher env) =
          [(localCandidate env (key env.platform env.arch), env.argv.drop 2)]) := by
  cases hr : env.requireResolve (pkg ++ "/package.json") with
  | ok p =>
    have hrun := run_installed env pkg p hpkg hr
    have hc : installedCandidate env pkg = some (join [dirname p, "linear"]) := by
      simp [installedCandidate, hr]
    have hie : installedExists env pkg = env.existsSync (join [dirname p, "linear"]) := by
      simp [installedExists, hc]
    rw [hc, hie, hrun]
    cases hx : env.existsSync (join [dirname p, "linear"]) with
    | true => simp [binaryNotFound, errorsOf, exitCodeOf, spawnsOf]
    | false =>
      refine ⟨?_, ?_, ?_⟩
      · simp [binaryNotFound, errorsOf, exitCodeOf]
      · intro b hb hbx
        rw [← Option.some.inj hb, hx] at hbx
        exact absurd hbx (by simp)
      · intro hnone
        exact absurd hnone (by simp)
  | error e =>
    have hrun := run_fallback env pkg e hpkg hr
    have hc : installedCandidate env pkg = none := by
      simp [installedCandidate, hr]
    have hie : installedExists env pkg = false := by
      simp [installedExists, hc]
    rw [hc, hie, hrun]
    cases hx : env.existsSync (localCandidate env (key env.platform env.arch)) with
    | true => simp [binaryNotFound, errorsOf, exitCodeOf, spawnsOf]
    | false => simp [binaryNotFound, errorsOf, exitCodeOf, spawnsOf]

/-- On `envLocal` no installed candidate is produced and the local one is spawned. -/
theorem binary_not_found_iff_selected_candidate_missing_witness :
    PLATFORMS.lookup (key envLocal.platform envLocal.arch) =
        some "@0xbigboss/linear-cli-darwin-arm64" ∧
      installedCandidate envLocal "@0xbigboss/linear-cli-darwin-arm64" = none ∧
      envLocal.existsSync (localCandidate envLocal "darwin-arm64") = true ∧
      spawnsOf (launcher envLocal) =
        [("/repo/npm/linear-cli-darwin-arm64/linear", ["issues", "list"])] :=
  ⟨by decide, by decide, by decide,
    (binary_not_found_iff_selected_candidate_missing envLocal
      "@0xbigboss/linear-cli-darwin-arm64" (by decide)).2.2 (by decide) (by decide)⟩

/-- C8 as stated fails: `constructor` is not a key of `PLATFORMS`, yet
`PLATFORMS["constructor"]` is the inherited member of `Object.prototype`, a truthy
value, not `undefined`. -/
theorem platforms_index_of_inherited_name_is_not_undefined :
    "constructor" ∉ platformKeys ∧
      platformsAt "constructor" = .inherited "constructor" ∧
      truthy (platformsAt "constructor") = true ∧
      ¬ (∀ k, k ∉ platformKeys → platformsAt k = .undefined) := by
  refine ⟨by decide, by decide, by decide, ?_⟩
  intro h
  exact absurd (h "constructor" (by decide)) (by decide)

/-- C8, amended: `PLATFORMS` has exactly the four own keys `darwin-arm64`,
`darwin-x64`, `linux-x64`, `linux-arm64`; indexing it with any other string gives
`undefined`, unless the string names a property inherited from `Object.prototype`,
which gives that inherited member and never a package; the empty string and every
computed key `{os}-{arch}` outside the four give `undefined`; and each value is the
scoped package name `@0xbigboss/linear-cli-{key}`, non-empty and made of lowercase
URL-safe characters. -/
theorem platforms_own_keys_are_closed_with_valid_package_names :
    platformKeys = ["darwin-arm64", "darwin-x64", "linux-x64", "linux-arm64"] ∧
      (∀ k, k ∉ ["darwin-arm64", "darwin-x64", "linux-x64", "linux-arm64"] →
        k ∉ objectPrototypeProperties → platformsAt k = .undefined) ∧
      (∀ k, k ∈ objectPrototypeProperties → platformsAt k = .inherited k) ∧
      platformsAt "" = .undefined ∧
      (∀ platform arch,
        key platform arch ∉ ["darwin-arm64", "darwin-x64", "linux-x64", "linux-arm64"] →
        platformsAt (key platform arch) = .undefined) ∧
      (∀ k, k ∈ ["darwin-arm64", "darwin-x64", "linux-x64", "linux-arm64"] →
        platformsAt k = .string ("@0xbigboss/linear-cli-" ++ k)) ∧
      (∀ k v, platformsAt k = .string v →
        k ∈ ["darwin-arm64", "darwin-x64", "linux-x64", "linux-arm64"] ∧
        v = "@0xbigboss/linear-cli-" ++ k ∧ v ≠ "" ∧ validScopedName v = true) := by
  have hvalid : ∀ k, k ∈ platformKeys →
      "@0xbigboss/linear-cli-" ++ k ≠ "" ∧
        validScopedName ("@0xbigboss/linear-cli-" ++ k) = true := by
    intro k hk
    simp only [platformKeys, PLATFORMS, List.map_cons, List.map_nil, List.mem_cons,
      List.mem_singleton, List.not_mem_nil, or_false] at hk
    rcases hk with rfl | rfl | rfl | rfl <;> exact ⟨by decide, by decide⟩
  refine ⟨rfl, ?_, ?_, by decide, ?_, ?_, ?_⟩
  · intro k hk hp
    simp [platformsAt, lookup_of_not_mem k hk, hp]
  · intro k hk
    have hnk : k ∉ platformKeys := by
      intro hmem
      revert hk
      simp only [platformKeys, PLATFORMS, List.map_cons, List.map_nil, List.mem_cons,
        List.mem_singleton, List.not_mem_nil, or_false] at hmem
      rcases hmem with rfl | rfl | rfl | rfl <;> decide
    simp [platformsAt, lookup_of_not_mem k hnk, hk]
  · intro platform arch hk
    simp [platformsAt, lookup_of_not_mem _ hk, key_not_inherited platform arch]
  · intro k hk
    simp [platformsAt, lookup_of_mem k hk]
  · intro k v h
    by_cases hk : k ∈ platformKeys
    · rw [platformsAt, lookup_of_mem k hk] at h
      obtain rfl : "@0xbigboss/linear-cli-" ++ k = v := JsValue.string.inj h
      exact ⟨hk, rfl, (hvalid k hk).1, (hvalid k hk).2⟩
    · rw [platformsAt, lookup_of_not_mem k hk] at h
      simp only at h
      split at h <;> exact absurd h (by simp)

/-- C9 as stated fails: when the validated path is a directory named `linear`,
`spawnSync` is called but starts no child (status `null`, error `EACCES`); the run
ends without a child, without any message on the error stream, with exit code 1. -/
theorem run_without_child_may_write_no_message :
    envBinaryIsDirectory.existsSync
        "/repo/node_modules/@0xbigboss/linear-cli-linux-x64/linear" = true ∧
      launcher envBinaryIsDirectory =
        [.requireResolve "@0xbigboss/linear-cli-linux-x64/package.json",
          .existsSync .validation "/repo/node_modules/@0xbigboss/linear-cli-linux-x64/linear",
          .spawnSync "/repo/node_modules/@0xbigboss/linear-cli-linux-x64/linear" ["status"],
          .exit 1] ∧
      startedOf envBinaryIsDirectory (launcher envBinaryIsDirectory) = [] ∧
      errorsOf (launcher envBinaryIsDirectory) = [] ∧
      ¬ (startedOf envBinaryIsDirectory (launcher envBinaryIsDirectory) = [] →
          (errorsOf (launcher envBinaryIsDirectory)).length = 1 ∧
          exitCodeOf (launcher envBinaryIsDirectory) = some 1) := by
  refine ⟨by decide, by decide, by decide, by decide, ?_⟩
  intro h
  exact absurd (h (by decide)).1 (by decide)

/-- C9, amended: in every run `spawnSync` is called at most once, so at most one
child is started; the path it is called on is the one whose existence the validation
step has just checked (with a positive answer) and its final component is `linear`;
a run that never calls `spawnSync` writes exactly one message to the error stream
and exits with code 1; a run that calls `spawnSync` writes no message of its own and
exits with the status of the call, which is 1 when no child could be started. -/
theorem launcher_calls_spawn_only_on_a_validated_linear_binary (env : Env) :
    (spawnsOf (launcher env)).length ≤ 1 ∧
      (startedOf env (launcher env)).length ≤ 1 ∧
      (∀ bin args, (bin, args) ∈ spawnsOf (launcher env) →
        (∃ pre post, launcher env =
          pre ++ .existsSync .validation bin :: .spawnSync bin args :: post) ∧
        env.existsSync bin = true ∧
        finalComponent bin = "linear") ∧
      (spawnsOf (launcher env) = [] →
        (errorsOf (launcher env)).length = 1 ∧
        exitCodeOf (launcher env) = some 1 ∧
        (launcher env).getLast? = some (.exit 1)) ∧
      (∀ bin args, (bin, args) ∈ spawnsOf (launcher env) →
        errorsOf (launcher env) = [] ∧
        exitCodeOf (launcher env) = some ((env.spawnSync bin args).getD 1) ∧
        (env.spawnSync bin args = none → exitCodeOf (launcher env) = some 1)) := by
  have hlen : (spawnsOf (launcher env)).length ≤ 1 := by
    rcases spawns_cases env with h0 | ⟨b, _, _, hs, _⟩
    · rw [h0]
      exact Nat.zero_le _
    · rw [hs]
      exact Nat.le_refl _
  refine ⟨hlen, ?_, ?_, ?_, ?_⟩
  · exact Nat.le_trans (List.length_filter_le _ _) hlen
  · intro bin args h
    rcases spawns_cases env with h0 | ⟨b, pre, hrun, hs, _, hx, hf⟩
    · rw [h0] at h
      exact absurd h (List.not_mem_nil _)
    · rw [hs, List.mem_singleton] at h
      obtain ⟨rfl, rfl⟩ := Prod.mk.inj h
      exact ⟨⟨pre, _, hrun⟩, hx, hf⟩
  · intro h0
    rcases launcher_cases env with ⟨_, hrun⟩ | ⟨pkg, _, h⟩
    · rw [hrun]
      simp [errorsOf, exitCodeOf]
    · rcases h with ⟨p, _, _, hrun⟩ | ⟨p, _, _, hrun⟩ | ⟨e, _, _, hrun⟩ | ⟨e, _, _, hrun⟩
      · rw [hrun] at h0
        exact absurd h0 (by simp [spawnsOf])
      · rw [hrun]
        simp [errorsOf, exitCodeOf]
      · rw [hrun] at h0
        exact absurd h0 (by simp [spawnsOf])
      · rw [hrun]
        simp [errorsOf, exitCodeOf]
  · intro bin args h
    have hmain : errorsOf (launcher env) = [] ∧
        exitCodeOf (launcher env) = some ((env.spawnSync bin args).getD 1) := by
      rcases launcher_cases env with ⟨_, hrun⟩ | ⟨pkg, _, hc⟩
      · rw [hrun] at h
        exact absurd h (by simp [spawnsOf])
      · rcases hc with ⟨p, _, _, hrun⟩ | ⟨p, _, _, hrun⟩ | ⟨e, _, _, hrun⟩ | ⟨e, _, _, hrun⟩
        · rw [hrun] at h ⊢
          simp only [spawnsOf, List.mem_singleton, Prod.mk.injEq] at h
          obtain ⟨rfl, rfl⟩ := h
          simp [errorsOf, exitCodeOf]
        · rw [hrun] at h
          exact absurd h (by simp [spawnsOf])
        · rw [hrun] at h ⊢
          simp only [spawnsOf, List.mem_singleton, Prod.mk.injEq] at h
          obtain ⟨rfl, rfl⟩ := h
          simp [errorsOf, exitCodeOf]
        · rw [hrun] at h
          exact absurd h (by simp [spawnsOf])
    refine ⟨hmain.1, hmain.2, ?_⟩
    intro hn
    rw [hmain.2, hn]
    rfl

/-- C10: on a supported platform, when `require.resolve` succeeds with `p` but
`join(dirname(p), "linear")` does not exist, the launcher reports BinaryNotFound and
exits with code 1; the `catch` block with the local-development path is not
entered, whether or not that path exists. -/
theorem installed_package_without_binary_never_falls_back (env : Env) (pkg p : String)
    (hpkg : PLATFORMS.lookup (key env.platform env.arch) = some pkg)
    (hres : env.requireResolve (pkg ++ "/package.json") = .ok p)
    (hex : env.existsSync (join [dirname p, "linear"]) = false) :
    launcher env =
        [.requireResolve (pkg ++ "/package.json"),
          .existsSync .validation (join [dirname p, "linear"]),
          .consoleError
            ("Binary not found for " ++ key env.platform env.arch ++ ". Run: zig build npm"),
          .exit 1] ∧
      exitCodeOf (launcher env) = some 1 ∧
      spawnsOf (launcher env) = [] ∧
      ∀ q, (Site.fallback, q) ∉ checksOf (launcher env) := by
  have hrun := run_installed env pkg p hpkg hres
  rw [hex] at hrun
  rw [hrun]
  simp [exitCodeOf, spawnsOf, checksOf, notFoundMessage]

/-- On `envInstalledWithoutBinary` the local build output exists and is not used. -/
theorem installed_package_without_binary_never_falls_back_witness :
    PLATFORMS.lookup (key envInstalledWithoutBinary.platform envInstalledWithoutBinary.arch) =
        some "@0xbigboss/linear-cli-linux-x64" ∧
      envInstalledWithoutBinary.existsSync
        (localCandidate envInstalledWithoutBinary "linux-x64") = true ∧
      launcher envInstalledWithoutBinary =
        [.requireResolve "@0xbigboss/linear-cli-linux-x64/package.json",
          .existsSync .validation "/repo/node_modules/@0xbigboss/linear-cli-linux-x64/linear",
          .consoleError "Binary not found for linux-x64. Run: zig build npm",
          .exit 1] :=
  ⟨by decide, by decide,
    (installed_package_without_binary_never_falls_back envInstalledWithoutBinary
      "@0xbigboss/linear-cli-linux-x64"
      "/repo/node_modules/@0xbigboss/linear-cli-linux-x64/package.json"
      (by decide) rfl (by decide)).1⟩

end LinearCli
